import Mathlib

/-!
Shallow embedding of the ResearchAgent / Citebase ingestion-and-retrieval
pipeline (tools/fetch_page.py, tools/split_chunks.py, tools/synthesize_answer.py,
tools/retrieve_context.py, tools/search_web.py, tools/embed_chunks.py,
tools/upsert_vectors.py, pipelines/qa.py), together with theorems settling the
frozen claims about it.

Network and external-library boundaries (the requests library, the SerpAPI
provider, the embedding backends, the language-model backends, the Chroma
client) are modelled as explicit function parameters; everything the repository
itself computes is translated directly from the Python source.  Machine floats
in the source carry only data (scores, temperatures); they are modelled as
rationals.
-/

namespace RA

/-! ## Python string primitives used by the source -/

/-- Python falsy-or on strings: a or b is b exactly when a is empty. -/
def pyOr (a b : String) : String := if a = "" then b else a

/-- Characters removed by Python str.strip() (whitespace). -/
def isWs (c : Char) : Bool := c.isWhitespace

/-- Strip whitespace from both ends of a character list (str.strip()). -/
def stripChars (l : List Char) : List Char :=
  ((l.dropWhile isWs).reverse.dropWhile isWs).reverse

/-- Python str.strip(). -/
def pyStrip (s : String) : String := String.mk (stripChars s.toList)

/-- Python s[:n] (slice of the first n characters). -/
def pyTake (n : Nat) (s : String) : String := String.mk (s.toList.take n)

/-- Python s.replace("\n", " ") (the only replace the source performs is on a
single character). -/
def nlToSpace (s : String) : String :=
  String.mk (s.toList.map fun c => if c = '\n' then ' ' else c)

/-- Python s.lower() restricted to the ASCII case mapping used by the source. -/
def lowerStr (s : String) : String := String.mk (s.toList.map Char.toLower)

/-- Does the list l start with the list p (helper for substring search)? -/
def startsWithL : List Char → List Char → Bool
  | _, [] => true
  | [], _ :: _ => false
  | a :: as, b :: bs => a = b && startsWithL as bs

/-- Does p occur as a contiguous run inside l (Python "p in l")? -/
def hasSubL (p : List Char) : List Char → Bool
  | [] => startsWithL [] p
  | c :: t => startsWithL (c :: t) p || hasSubL p t

/-- Python substring membership test: pat in s. -/
def hasSub (s pat : String) : Bool := hasSubL pat.toList s.toList

/-! ## Configuration constants (config/settings.py defaults) -/

/-- SETTINGS.MAX_RETRIES (settings.py default "2"). -/
def MAX_RETRIES : Nat := 2

/-- SETTINGS.RETRIEVAL_TOP_K (settings.py default "6"). -/
def RETRIEVAL_TOP_K : Int := 6

/-- SETTINGS.MAX_SEARCH_RESULTS (settings.py default "20"). -/
def MAX_SEARCH_RESULTS : Int := 20

/-- SETTINGS.CHROMA_COLLECTION_PREFIX (settings.py default "research_"). -/
def collectionPrefixCfg : String := "research_"

/-! ## tools/fetch_page.py -/

/-- Characters allowed after the first letter of a URL scheme, following
urllib.parse (letters, digits, plus, minus, dot). -/
def isSchemeChar (c : Char) : Bool :=
  c.isAlphanum || c = '+' || c = '-' || c = '.'

/-- Helper for urlSchemeOf: acc holds the (reversed) characters seen before the
first colon. -/
def urlSchemeAux : List Char → List Char → String
  | _, [] => ""
  | acc, ':' :: _ =>
    match acc.reverse with
    | [] => ""
    | c :: cs =>
      if c.isAlpha && (c :: cs).all isSchemeChar then
        String.mk ((c :: cs).map Char.toLower)
      else ""
  | acc, c :: t => urlSchemeAux (c :: acc) t

/-- urllib.parse.urlparse(u).scheme: the text before the first colon when it is
nonempty, starts with a letter and consists of scheme characters; urlparse
lowercases it, otherwise the scheme is empty. -/
def urlSchemeOf (u : String) : String := urlSchemeAux [] u.toList

/-- tools/fetch_page.py _is_http_url: the parsed scheme, lowercased, is http
or https. -/
def isHttpUrl (u : String) : Bool :=
  let s := lowerStr (urlSchemeOf u)
  s = "http" || s = "https"

/-- One HTTP response as seen by fetch_page: status code, Content-Type header
value (empty when absent) and decoded body text. -/
structure HttpResp where
  status : Nat
  ctype : String
  body : String
deriving DecidableEq, Repr

/-- What one attempt of requests.get can produce: a transport failure
(requests.RequestException) or a response. -/
inductive NetEvent where
  | failure : NetEvent
  | resp : HttpResp → NetEvent
deriving DecidableEq, Repr

/-- The record fetch_page returns: always the three keys url, html, status. -/
structure FetchedPage where
  url : String
  html : String
  status : Nat
deriving DecidableEq, Repr

/-- The retryable status set of fetch_page (408, 409, 425, 429, 500, 502,
503, 504). -/
def retryableStatus (s : Nat) : Bool :=
  s = 408 || s = 409 || s = 425 || s = 429 ||
  s = 500 || s = 502 || s = 503 || s = 504

/-- The Content-Type gate of fetch_page: keep the body only for text/html or
application/xhtml+xml content. -/
def isHtmlCType (ctype : String) : Bool :=
  hasSub (lowerStr (pyOr ctype "")) "text/html" ||
  hasSub (lowerStr (pyOr ctype "")) "application/xhtml+xml"

/-- The retry loop of fetch_page.  net gives the outcome of each attempt
(numbered from 0); fuel is the number of attempts still allowed
(max_attempts minus attempts already made).  Backoff sleeps are timing only
and are not modelled. -/
def fetchLoop (url : String) (net : Nat → NetEvent) : Nat → Nat → FetchedPage
  | _, 0 => ⟨url, "", 0⟩
  | attempt, fuel + 1 =>
    match net attempt with
    | NetEvent.failure =>
      if fuel = 0 then ⟨url, "", 0⟩
      else fetchLoop url net (attempt + 1) fuel
    | NetEvent.resp r =>
      if r.status ≠ 200 then
        if retryableStatus r.status && decide (fuel ≠ 0) then
          fetchLoop url net (attempt + 1) fuel
        else ⟨url, "", r.status⟩
      else if ¬ isHtmlCType r.ctype then ⟨url, "", r.status⟩
      else ⟨url, pyOr r.body "", r.status⟩

/-- tools/fetch_page.py fetch_page, with the network abstracted as net
(attempt number to outcome).  Non-http(s) URLs short-circuit; otherwise up to
SETTINGS.MAX_RETRIES + 1 attempts are made. -/
def fetch_page (url : String) (net : Nat → NetEvent) : FetchedPage :=
  if ¬ isHttpUrl url then ⟨url, "", 0⟩
  else fetchLoop url net 0 (MAX_RETRIES + 1)

theorem fetchLoop_url (url : String) (net : Nat → NetEvent) :
    ∀ fuel attempt, (fetchLoop url net attempt fuel).url = url := by
  intro fuel
  induction fuel with
  | zero => intro attempt; rfl
  | succ n ih =>
    intro attempt
    simp only [fetchLoop]
    repeat' split
    all_goals first | rfl | exact ih _

theorem fetchLoop_allFail (url : String) (net : Nat → NetEvent)
    (hf : ∀ n, net n = NetEvent.failure) :
    ∀ fuel attempt, fetchLoop url net attempt fuel = ⟨url, "", 0⟩ := by
  intro fuel
  induction fuel with
  | zero => intro attempt; rfl
  | succ n ih =>
    intro attempt
    simp only [fetchLoop, hf attempt]
    by_cases h : n = 0 <;> simp [h, ih]

/-- C1: fetch_page always returns a well-formed url/html/status record that
carries back the input url (being a total function of its inputs, it never
raises); when the url is malformed or its scheme is not http/https the result
is status 0 with empty html, and when every attempt fails at the transport
level (unreachable host) the result is likewise status 0 with empty html. -/
theorem fetch_page_contract (url : String) (net : Nat → NetEvent) :
    (fetch_page url net).url = url ∧
    (isHttpUrl url = false → fetch_page url net = ⟨url, "", 0⟩) ∧
    ((∀ n, net n = NetEvent.failure) → fetch_page url net = ⟨url, "", 0⟩) := by
  refine ⟨?_, ?_, ?_⟩
  · unfold fetch_page
    split
    · rfl
    · exact fetchLoop_url url net _ 0
  · intro h
    unfold fetch_page
    simp [h]
  · intro h
    unfold fetch_page
    split
    · rfl
    · exact fetchLoop_allFail url net h _ 0

/-- A network on which every attempt fails with a transport error. -/
def net0 : Nat → NetEvent := fun _ => NetEvent.failure

theorem fetch_page_contract_witness :
    (fetch_page "ftp://example.com/a" net0).url = "ftp://example.com/a" ∧
    fetch_page "ftp://example.com/a" net0 = ⟨"ftp://example.com/a", "", 0⟩ ∧
    fetch_page "http://unreachable.example" net0 =
      ⟨"http://unreachable.example", "", 0⟩ :=
  ⟨(fetch_page_contract "ftp://example.com/a" net0).1,
   (fetch_page_contract "ftp://example.com/a" net0).2.1 (by decide),
   (fetch_page_contract "http://unreachable.example" net0).2.2 (fun _ => rfl)⟩

/-! ## Strip is idempotent (needed to speak about already-trimmed chunk text) -/

/-- Left strip on character lists. -/
def lstripC (l : List Char) : List Char := l.dropWhile isWs

/-- Right strip on character lists. -/
def rstripC (l : List Char) : List Char := (l.reverse.dropWhile isWs).reverse

theorem stripChars_decompose (l : List Char) :
    stripChars l = rstripC (lstripC l) := rfl

theorem dropWhile_head_false (p : Char → Bool) (l : List Char) :
    ∀ c cs, l.dropWhile p = c :: cs → p c = false := by
  induction l with
  | nil => intro c cs h; cases h
  | cons a t ih =>
    intro c cs h
    rw [List.dropWhile_cons] at h
    by_cases ha : p a
    · exact ih c cs (by simpa [ha] using h)
    · simp only [ha, if_neg] at h
      simp only [Bool.not_eq_true] at ha
      obtain ⟨rfl, -⟩ := (List.cons.injEq _ _ _ _).mp
        (by simpa [ha] using h)
      exact ha

theorem dropWhile_eq_self_of (p : Char → Bool) (l : List Char)
    (h : ∀ c cs, l = c :: cs → p c = false) : l.dropWhile p = l := by
  cases l with
  | nil => rfl
  | cons a t => rw [List.dropWhile_cons]; simp [h a t rfl]

theorem dropWhile_idem (p : Char → Bool) (l : List Char) :
    (l.dropWhile p).dropWhile p = l.dropWhile p :=
  dropWhile_eq_self_of p _ (dropWhile_head_false p l)

theorem rstripC_front (l : List Char) : rstripC l <+: l := by
  have h := List.reverse_prefix.mpr (List.dropWhile_suffix (l := l.reverse) isWs)
  simpa [rstripC] using h

theorem prefix_head (t m : List Char) (h : t <+: m) (c : Char) (cs : List Char)
    (ht : t = c :: cs) : ∃ ds, m = c :: ds := by
  obtain ⟨r, hr⟩ := h
  subst ht
  exact ⟨cs ++ r, by simp [← hr]⟩

theorem rstripC_idem (m : List Char) : rstripC (rstripC m) = rstripC m := by
  unfold rstripC
  rw [List.reverse_reverse, dropWhile_idem]

theorem stripChars_idem (l : List Char) :
    stripChars (stripChars l) = stripChars l := by
  have hl : ∀ c cs, lstripC l = c :: cs → isWs c = false :=
    dropWhile_head_false isWs l
  have h1 : lstripC (rstripC (lstripC l)) = rstripC (lstripC l) := by
    apply dropWhile_eq_self_of
    intro c cs hc
    obtain ⟨ds, hds⟩ := prefix_head _ _ (rstripC_front (lstripC l)) c cs hc
    exact hl c ds hds
  calc stripChars (stripChars l)
      = rstripC (lstripC (rstripC (lstripC l))) := rfl
    _ = rstripC (rstripC (lstripC l)) := by rw [h1]
    _ = rstripC (lstripC l) := rstripC_idem _
    _ = stripChars l := rfl

theorem pyStrip_idem (s : String) : pyStrip (pyStrip s) = pyStrip s := by
  unfold pyStrip
  have : (String.mk (stripChars s.toList)).toList = stripChars s.toList := rfl
  rw [this, stripChars_idem]

/-! ## tools/split_chunks.py -/

/-- The record split_chunks emits for each kept piece. -/
structure Chunk where
  chunk_id : String
  text : String
  url : String
  title : String
  order : Nat
deriving DecidableEq, Repr

/-- The body of the per-piece loop of split_chunks: trim the piece, drop it if
empty, otherwise hash url, order and the 40-character prefix (newlines mapped
to spaces).  H stands for tools/split_chunks.py _hash_id (a sha1 hex digest,
an external-library pure function taken as a parameter). -/
def chunkRow (H : String → String) (url title : String) (order : Nat)
    (raw : String) : Option Chunk :=
  if pyStrip (pyOr raw "") = "" then none
  else
    some ⟨H (url ++ "|" ++ toString order ++ "|" ++
             nlToSpace (pyTake 40 (pyStrip (pyOr raw "")))),
          pyStrip (pyOr raw ""), url, pyOr title "", order⟩

/-- tools/split_chunks.py split_chunks, with the LangChain text splitter (an
external library) abstracted as the parameter splitter and the sha1 digest as
H.  Pieces are enumerated from zero; empty trimmed pieces are skipped but keep
their enumeration index, exactly as the Python loop does. -/
def split_chunks (H : String → String) (splitter : String → List String)
    (doc_text url title : String) : List Chunk :=
  if doc_text = "" then []
  else (List.enum (splitter doc_text)).filterMap fun p =>
    chunkRow H url title p.1 p.2

theorem split_chunks_mem (H : String → String) (sp : String → List String)
    (d u t : String) (c : Chunk) (hc : c ∈ split_chunks H sp d u t) :
    c.chunk_id = H (u ++ "|" ++ toString c.order ++ "|" ++
      nlToSpace (pyTake 40 c.text)) ∧ pyStrip c.text = c.text := by
  unfold split_chunks at hc
  split at hc
  · cases hc
  · obtain ⟨p, -, hp⟩ := List.mem_filterMap.mp hc
    unfold chunkRow at hp
    split at hp
    · cases hp
    · obtain rfl := (Option.some.injEq _ _).mp hp
      exact ⟨rfl, pyStrip_idem _⟩

/-- C2: every chunk produced by split_chunks has chunk_id equal to the hash of
the url, the chunk's order and the first 40 characters of the chunk's trimmed
text (newlines mapped to spaces, as the source does before hashing); the
chunk's stored text is indeed trimmed; and the id is fully determined by
(url, order, trimmed text), so two runs — even over different raw documents or
splitters — assign identical ids to chunks with the same url, order and text,
which is the determinism re-ingestion relies on. -/
theorem split_chunks_id_deterministic (H : String → String)
    (sp : String → List String) (d u t : String) :
    (∀ c ∈ split_chunks H sp d u t,
      c.chunk_id = H (u ++ "|" ++ toString c.order ++ "|" ++
        nlToSpace (pyTake 40 c.text)) ∧ pyStrip c.text = c.text) ∧
    (∀ (sp2 : String → List String) (d2 t2 : String) (c c2 : Chunk),
      c ∈ split_chunks H sp d u t → c2 ∈ split_chunks H sp2 d2 u t2 →
      c.order = c2.order → c.text = c2.text → c.chunk_id = c2.chunk_id) := by
  refine ⟨fun c hc => split_chunks_mem H sp d u t c hc, ?_⟩
  intro sp2 d2 t2 c c2 hc hc2 ho htx
  have h1 := (split_chunks_mem H sp d u t c hc).1
  have h2 := (split_chunks_mem H sp2 d2 u t2 c2 hc2).1
  rw [h1, h2, ho, htx]

/-- A concrete stand-in for the sha1 hex digest. -/
def hash0 : String → String := fun s => "#" ++ s

/-- A concrete splitter producing one real piece and one empty piece. -/
def splitter0 : String → List String := fun _ => ["  hello\nworld  ", " "]

/-- The single chunk split_chunks produces from splitter0. -/
def chunk0 : Chunk := ⟨"#u|0|hello world", "hello\nworld", "u", "T", 0⟩

theorem split_chunks_id_deterministic_witness :
    chunk0.chunk_id = hash0 ("u" ++ "|" ++ toString chunk0.order ++ "|" ++
      nlToSpace (pyTake 40 chunk0.text)) ∧ pyStrip chunk0.text = chunk0.text :=
  (split_chunks_id_deterministic hash0 splitter0 "doc" "u" "T").1 chunk0
    (by decide)

/-! ## tools/synthesize_answer.py -/

/-- A retrieved context record: the dicts retrieve_context produces and
synthesize_answer consumes ({text, url, title, score}). -/
structure Ctx where
  text : String
  url : String
  title : String
  score : ℚ
deriving DecidableEq, Repr

/-- A citation entry ({url, title}). -/
structure Citation where
  url : String
  title : String
deriving DecidableEq, Repr

/-- What synthesize_answer returns on success ({content, citations}). -/
structure SynthResult where
  content : String
  citations : List Citation
deriving DecidableEq, Repr

/-- Join a list of strings with a separator (Python sep.join). -/
def joinSep (sep : String) : List String → String
  | [] => ""
  | [s] => s
  | s :: t => s ++ sep ++ joinSep sep (t)

/-- One numbered block of _format_contexts. -/
def formatCtxBlock (i : Nat) (c : Ctx) : String :=
  "[" ++ toString i ++ "] " ++ pyStrip (pyOr c.title "") ++ "\nURL: " ++
  pyStrip (pyOr c.url "") ++ "\n---\n" ++ pyStrip (pyOr c.text "") ++ "\n"

/-- tools/synthesize_answer.py _format_contexts (enumerate starts at 1). -/
def formatContexts (ctxs : List Ctx) : String :=
  joinSep "\n" ((List.enum ctxs).map fun p => formatCtxBlock (p.1 + 1) p.2)

/-- tools/synthesize_answer.py _dedupe_urls, with the mutable seen-set made an
explicit accumulator. -/
def dedupeUrlsAux : List Ctx → List String → List Citation
  | [], _ => []
  | c :: rest, seen =>
    if pyStrip (pyOr c.url "") = "" ∨
        seen.contains (pyStrip (pyOr c.url "")) then
      dedupeUrlsAux rest seen
    else
      ⟨pyStrip (pyOr c.url ""), pyStrip (pyOr c.title "")⟩ ::
        dedupeUrlsAux rest (pyStrip (pyOr c.url "") :: seen)

/-- tools/synthesize_answer.py _dedupe_urls. -/
def dedupe_urls (ctxs : List Ctx) : List Citation := dedupeUrlsAux ctxs []

/-- The canned no-context message of synthesize_answer. -/
def noContextMsg : String :=
  "I don’t have any supporting context yet. Try ingesting more sources for this topic."

/-- The system prompt of synthesize_answer. -/
def sysPromptText : String :=
  "You are a careful research assistant. Use ONLY the provided context blocks to answer.\n" ++
  "Cite sources by listing the URLs you relied on. If info is insufficient, say so explicitly.\n" ++
  "Structure the reply as:\n" ++
  "• A short paragraph answer.\n" ++
  "• 3-6 bullet points with key facts.\n" ++
  "• A \x27Sources:\x27 section with URLs (deduplicated).\n"

/-- The user prompt of synthesize_answer. -/
def userPromptText (question ctxBlock style : String) : String :=
  "Question: " ++ question ++ "\n\n" ++
  "Context blocks (use these as your only sources; cite their URLs):\n" ++
  ctxBlock ++ "\n\n" ++ "Style: " ++ style

/-- Python len() of a string in characters. -/
def pyLen (s : String) : Nat := s.toList.length

/-- tools/synthesize_answer.py synthesize_answer.  The three provider branches
(openai, ollama, groq) each reduce to one chat call on (sys_prompt,
user_prompt, temperature); that external call — including the ollama endpoint
fallback — is abstracted as backend, whose error value stands for any
exception the provider client raises.  provider stands for
SETTINGS.LLM_PROVIDER; an unsupported provider raises RuntimeError, modelled
as the error case. -/
def synthesize_answer (provider : String)
    (backend : String → String → String → ℚ → Except String String)
    (question : String) (contexts : List Ctx) (style : String)
    (temperature : ℚ) : Except String SynthResult :=
  if contexts = [] then Except.ok ⟨noContextMsg, []⟩
  else
    let ctxBlock0 := formatContexts contexts
    let ctxBlock :=
      if 12000 < pyLen ctxBlock0 then pyTake 12000 ctxBlock0 else ctxBlock0
    let p := pyStrip (lowerStr provider)
    if p = "openai" ∨ p = "ollama" ∨ p = "groq" then
      match backend p sysPromptText
          (userPromptText question ctxBlock style) temperature with
      | Except.error e => Except.error e
      | Except.ok content =>
        Except.ok ⟨pyStrip content, dedupe_urls contexts⟩
    else Except.error ("Unsupported LLM_PROVIDER: " ++ provider)

/-- C3: with an empty contexts list, synthesize_answer returns the canned
no-context message with an empty citations list for every question, style,
temperature and provider, and the result is uniform in the language-model
backend — the backend argument never influences it, so the backend is never
invoked. -/
theorem synthesize_answer_empty_contexts (provider question style : String)
    (temperature : ℚ)
    (backend backend2 : String → String → String → ℚ → Except String String) :
    synthesize_answer provider backend question [] style temperature =
      Except.ok ⟨noContextMsg, []⟩ ∧
    synthesize_answer provider backend question [] style temperature =
      synthesize_answer provider backend2 question [] style temperature := by
  constructor <;> rfl

/-! ## Claim C4: citations of synthesize_answer -/

/-- The citation list read literally from the claim for C4: the {url, title}
pairs of the contexts, deduplicated by url, order of first appearance
preserved (no trimming, no dropping of empty urls). -/
def specPairsAux : List Ctx → List String → List Citation
  | [], _ => []
  | c :: rest, seen =>
    if seen.contains c.url then specPairsAux rest seen
    else ⟨c.url, c.title⟩ :: specPairsAux rest (c.url :: seen)

/-- Claim-literal citation computation (see specPairsAux). -/
def specPairs (ctxs : List Ctx) : List Citation := specPairsAux ctxs []

/-- A context whose url is empty (as retrieve_context produces when the stored
metadata carries no url). -/
def noUrlCtx : Ctx := ⟨"some text", "", "Untitled", 0⟩

/-- A backend that always answers. -/
def okBackendC4 : String → String → String → ℚ → Except String String :=
  fun _ _ _ _ => Except.ok "answer"

theorem synthesize_citations_counterexample :
    synthesize_answer "openai" okBackendC4 "q" [noUrlCtx] "concise" (1/5) =
      Except.ok ⟨"answer", []⟩ ∧
    specPairs [noUrlCtx] = [⟨"", "Untitled"⟩] ∧
    ([] : List Citation) ≠ [(⟨"", "Untitled"⟩ : Citation)] :=
  ⟨rfl, rfl, by decide⟩

/-- The amended citation computation: trim each context's url and title, drop
contexts whose trimmed url is empty, deduplicate by trimmed url keeping the
first appearance. -/
def amendedCitationsAux : List Ctx → List String → List Citation
  | [], _ => []
  | c :: rest, seen =>
    if pyStrip c.url = "" then amendedCitationsAux rest seen
    else if seen.contains (pyStrip c.url) then amendedCitationsAux rest seen
    else ⟨pyStrip c.url, pyStrip c.title⟩ ::
      amendedCitationsAux rest (pyStrip c.url :: seen)

/-- Amended citation list (see amendedCitationsAux). -/
def amendedCitations (ctxs : List Ctx) : List Citation :=
  amendedCitationsAux ctxs []

theorem pyOr_empty (s : String) : pyOr s "" = s := by
  unfold pyOr
  split
  · next h => exact h.symm
  · rfl

theorem dedupeUrlsAux_eq_amended (ctxs : List Ctx) :
    ∀ seen, dedupeUrlsAux ctxs seen = amendedCitationsAux ctxs seen := by
  induction ctxs with
  | nil => intro seen; rfl
  | cons c rest ih =>
    intro seen
    unfold dedupeUrlsAux amendedCitationsAux
    rw [pyOr_empty, pyOr_empty]
    by_cases h1 : pyStrip c.url = ""
    · simp [h1, ih]
    · by_cases h2 : seen.contains (pyStrip c.url) = true
      · simp [h1, h2, ih]
      · simp [h1, h2, ih]

theorem amendedAux_not_seen (ctxs : List Ctx) :
    ∀ seen u, u ∈ (amendedCitationsAux ctxs seen).map Citation.url →
      seen.contains u = false := by
  induction ctxs with
  | nil => intro seen u h; cases h
  | cons c rest ih =>
    intro seen u h
    unfold amendedCitationsAux at h
    split at h
    · exact ih seen u h
    · split at h
      · exact ih seen u h
      · next hseen =>
        rw [List.map_cons, List.mem_cons] at h
        cases h with
        | inl h =>
          subst h
          simpa using hseen
        | inr h =>
          have h2 := ih (pyStrip c.url :: seen) u h
          rw [List.contains_cons] at h2
          exact (Bool.or_eq_false_iff.mp h2).2

theorem amendedAux_nodup (ctxs : List Ctx) :
    ∀ seen, ((amendedCitationsAux ctxs seen).map Citation.url).Nodup := by
  induction ctxs with
  | nil => intro seen; simp [amendedCitationsAux]
  | cons c rest ih =>
    intro seen
    unfold amendedCitationsAux
    split
    · exact ih seen
    · split
      · exact ih seen
      · rw [List.map_cons]
        refine List.nodup_cons.mpr ⟨?_, ih _⟩
        intro hmem
        have h := amendedAux_not_seen rest (pyStrip c.url :: seen)
          (pyStrip c.url) hmem
        rw [List.contains_cons] at h
        simp at h

/-- C4 (amended): for a non-empty contexts list, whenever synthesize_answer
returns a result, its citations are the trimmed {url, title} pairs of exactly
those contexts whose trimmed url is non-empty, deduplicated by url with order
of first appearance preserved; in particular no url appears twice.  The
amendment over the original claim: contexts with an empty (or whitespace-only)
url are dropped rather than cited, and url/title are whitespace-trimmed. -/
theorem synthesize_citations_amended (provider question style : String)
    (temperature : ℚ)
    (backend : String → String → String → ℚ → Except String String)
    (ctxs : List Ctx) (r : SynthResult) (hne : ctxs ≠ [])
    (hok : synthesize_answer provider backend question ctxs style temperature =
      Except.ok r) :
    r.citations = amendedCitations ctxs ∧
    (r.citations.map Citation.url).Nodup := by
  have hcit : r.citations = dedupe_urls ctxs := by
    unfold synthesize_answer at hok
    rw [if_neg hne] at hok
    dsimp only at hok
    split at hok
    · split at hok
      · cases hok
      · next content heq =>
        obtain rfl := (Except.ok.injEq _ _).mp hok
        rfl
    · cases hok
  rw [hcit]
  unfold dedupe_urls amendedCitations
  rw [dedupeUrlsAux_eq_amended]
  exact ⟨rfl, by rw [← dedupeUrlsAux_eq_amended]; rw [dedupeUrlsAux_eq_amended]; exact amendedAux_nodup ctxs []⟩

/-- Contexts whose urls follow the pattern A, B, A, C of the claim. -/
def ctxsABAC : List Ctx :=
  [⟨"t1", "https://a.example/x", "A", (9 : ℚ)/10⟩,
   ⟨"t2", "https://b.example/y", "B", (8 : ℚ)/10⟩,
   ⟨"t3", "https://a.example/x", "A2", (7 : ℚ)/10⟩,
   ⟨"t4", "https://c.example/z", "C", (6 : ℚ)/10⟩]

/-- The result synthesize_answer produces on ctxsABAC: citations are exactly
[A, B, C], first-seen order, no repeats. -/
def resABAC : SynthResult :=
  ⟨"answer", [⟨"https://a.example/x", "A"⟩, ⟨"https://b.example/y", "B"⟩,
    ⟨"https://c.example/z", "C"⟩]⟩

theorem synthesize_citations_amended_witness :
    resABAC.citations = amendedCitations ctxsABAC ∧
    (resABAC.citations.map Citation.url).Nodup :=
  synthesize_citations_amended "openai" "q" "concise" (1/5) okBackendC4
    ctxsABAC resABAC (by decide) (by rfl)

/-! ## tools/retrieve_context.py and pipelines/qa.py -/

/-- Stored metadata as Chroma hands it back: either key may be absent. -/
structure MetaD where
  url : Option String
  title : Option String
deriving DecidableEq, Repr

/-- The shape of a Chroma query response: one inner list per query embedding
(retrieve_context sends exactly one and reads index 0); a whole metadata entry
may be None. -/
structure QueryRes where
  documents : List (List String)
  metadatas : List (List (Option MetaD))
  distances : List (List ℚ)

/-- The slice of the Chroma collection interface retrieve_context uses:
query(query_embeddings=[v], n_results=n). -/
structure Collection where
  query : List ℚ → Nat → QueryRes

/-- tools/retrieve_context.py _collection_name (and the identical helper in
tools/upsert_vectors.py): prefix ++ namespace, then str.strip(). -/
def collectionName (ns : String) : String :=
  pyStrip (collectionPrefixCfg ++ ns)

/-- Python top_k or SETTINGS.RETRIEVAL_TOP_K: None and 0 are both falsy. -/
def effTopK (top_k : Option Int) : Int :=
  match top_k with
  | none => RETRIEVAL_TOP_K
  | some v => if v = 0 then RETRIEVAL_TOP_K else v

/-- Python zip over three parallel lists (truncates to the shortest). -/
def zip3 : List String → List (Option MetaD) → List ℚ →
    List (String × Option MetaD × ℚ)
  | d :: ds, m :: ms, t :: ts => (d, m, t) :: zip3 ds ms ts
  | _, _, _ => []

/-- (meta or \x7b\x7d).get("url", ""). -/
def metaUrl (m : Option MetaD) : String :=
  match m with
  | none => ""
  | some md => md.url.getD ""

/-- (meta or \x7b\x7d).get("title", ""). -/
def metaTitle (m : Option MetaD) : String :=
  match m with
  | none => ""
  | some md => md.title.getD ""

/-- The record built for one (doc, meta, dist) row of the query response: the
score is 1 - distance (the float conversion cannot fail on a number, so the
except-branch assigning 0.0 is dead for well-typed responses). -/
def mkRow (p : String × Option MetaD × ℚ) : Ctx :=
  ⟨pyOr p.1 "", metaUrl p.2.1, metaTitle p.2.1, 1 - p.2.2⟩

/-- The descending-score order used by out.sort(key=score, reverse=True). -/
def byScoreDesc (a b : Ctx) : Prop := b.score ≤ a.score

instance : DecidableRel byScoreDesc :=
  fun a b => inferInstanceAs (Decidable (b.score ≤ a.score))

instance : IsTotal Ctx byScoreDesc :=
  ⟨fun a b => le_total b.score a.score⟩

instance : IsTrans Ctx byScoreDesc :=
  ⟨fun _ _ _ h1 h2 => le_trans h2 h1⟩

/-- The zipped (doc, meta, dist) rows of the first (and only) query result. -/
def queryRows (col : Collection) (qvec : List ℚ) (n : Nat) :
    List (String × Option MetaD × ℚ) :=
  zip3 ((col.query qvec n).documents.headD [])
    ((col.query qvec n).metadatas.headD [])
    ((col.query qvec n).distances.headD [])

/-- tools/retrieve_context.py retrieve_context.  The Chroma client is
abstracted as getCol (get_collection, returning none when the collection does
not exist, which the source catches and turns into an empty result) and the
query-embedding backend as embedQ (_embed_query, whose empty-input guard is
the qvec emptiness check below).  The sort is Python's stable descending sort
by score, modelled by insertion sort. -/
def retrieve_context (getCol : String → Option Collection)
    (embedQ : String → List ℚ) (ns question : String)
    (top_k : Option Int) : List Ctx :=
  if ns = "" ∨ question = "" then []
  else
    match getCol (collectionName ns) with
    | none => []
    | some col =>
      if embedQ question = [] then []
      else
        List.insertionSort byScoreDesc
          ((queryRows col (embedQ question)
            (max 1 (effTopK top_k)).toNat).map mkRow)

/-- The canned no-context message of pipelines/qa.py answer_question. -/
def qaNoCtxMsg : String :=
  "I couldn’t find relevant context in this namespace. Try ingesting more sources or re-ingesting with --force."

/-- pipelines/qa.py answer_question: retrieve then synthesize with style
"concise" and temperature 0.2. -/
def answer_question (getCol : String → Option Collection)
    (embedQ : String → List ℚ) (provider : String)
    (backend : String → String → String → ℚ → Except String String)
    (question ns : String) (top_k : Option Int) : Except String SynthResult :=
  let ctxs := retrieve_context getCol embedQ ns question (some (effTopK top_k))
  if ctxs = [] then Except.ok ⟨qaNoCtxMsg, []⟩
  else synthesize_answer provider backend question ctxs "concise" (1/5)

theorem retrieve_context_nil_of_missing (getCol : String → Option Collection)
    (embedQ : String → List ℚ) (ns question : String) (top_k : Option Int)
    (h : getCol (collectionName ns) = none) :
    retrieve_context getCol embedQ ns question top_k = [] := by
  unfold retrieve_context
  by_cases hng : ns = "" ∨ question = ""
  · simp [hng]
  · simp only [if_neg hng, h]

/-- C5: when the namespace's backing collection does not exist,
retrieve_context returns the empty list (and, being total, does not raise),
for every question and top_k; and answer_question on that namespace returns
the fixed no-relevant-context message with an empty citations list, never
touching the language backend. -/
theorem retrieve_missing_collection (getCol : String → Option Collection)
    (embedQ : String → List ℚ) (provider : String)
    (backend : String → String → String → ℚ → Except String String)
    (ns question : String) (top_k : Option Int)
    (h : getCol (collectionName ns) = none) :
    retrieve_context getCol embedQ ns question top_k = [] ∧
    answer_question getCol embedQ provider backend question ns top_k =
      Except.ok ⟨qaNoCtxMsg, []⟩ := by
  refine ⟨retrieve_context_nil_of_missing getCol embedQ ns question top_k h, ?_⟩
  unfold answer_question
  rw [retrieve_context_nil_of_missing getCol embedQ ns question
    (some (effTopK top_k)) h]
  rfl

/-- A vector store holding no collections at all. -/
def emptyGetCol : String → Option Collection := fun _ => none

/-- A query embedder used in witnesses. -/
def embedQ1 : String → List ℚ := fun _ => [1]

/-- A backend used in the C5 witness. -/
def okBackendC5 : String → String → String → ℚ → Except String String :=
  fun _ _ _ _ => Except.ok "answer"

theorem retrieve_missing_collection_witness :
    retrieve_context emptyGetCol embedQ1 "demo" "what?" (some 3) = [] ∧
    answer_question emptyGetCol embedQ1 "openai" okBackendC5 "what?" "demo"
      (some 3) = Except.ok ⟨qaNoCtxMsg, []⟩ :=
  retrieve_missing_collection emptyGetCol embedQ1 "openai" okBackendC5
    "demo" "what?" (some 3) rfl

/-- C6: when the collection exists and the question embeds to a non-empty
vector, retrieve_context returns exactly the (doc, meta, dist) rows of the
store's reply, each scored 1 - distance (as a permutation of that row list),
and the returned list is sorted in descending order of score. -/
theorem retrieve_scores_sorted (getCol : String → Option Collection)
    (embedQ : String → List ℚ) (ns question : String) (top_k : Option Int)
    (col : Collection) (hcol : getCol (collectionName ns) = some col)
    (hng : ¬(ns = "" ∨ question = "")) (hv : embedQ question ≠ []) :
    (retrieve_context getCol embedQ ns question top_k).Perm
      ((queryRows col (embedQ question)
        (max 1 (effTopK top_k)).toNat).map mkRow) ∧
    List.Sorted byScoreDesc (retrieve_context getCol embedQ ns question top_k) ∧
    ∀ c ∈ retrieve_context getCol embedQ ns question top_k,
      ∃ row ∈ queryRows col (embedQ question) (max 1 (effTopK top_k)).toNat,
        c = mkRow row ∧ c.score = 1 - row.2.2 := by
  have hre : retrieve_context getCol embedQ ns question top_k =
      List.insertionSort byScoreDesc
        ((queryRows col (embedQ question)
          (max 1 (effTopK top_k)).toNat).map mkRow) := by
    unfold retrieve_context
    rw [if_neg hng, hcol]
    dsimp only
    rw [if_neg hv]
  refine ⟨?_, ?_, ?_⟩
  · rw [hre]; exact List.perm_insertionSort byScoreDesc _
  · rw [hre]; exact List.sorted_insertionSort byScoreDesc _
  · intro c hc
    rw [hre] at hc
    have hm := (List.perm_insertionSort byScoreDesc _).mem_iff.mp hc
    obtain ⟨row, hrow, rfl⟩ := List.mem_map.mp hm
    exact ⟨row, hrow, rfl, rfl⟩

/-- A fixed Chroma reply with three hits at distances 1/2, 1/4, 3/4. -/
def demoQueryRes : QueryRes :=
  ⟨[["doc1", "doc2", "doc3"]],
   [[some ⟨some "u1", some "T1"⟩, some ⟨some "u2", some "T2"⟩, none]],
   [[(1 : ℚ)/2, (1 : ℚ)/4, (3 : ℚ)/4]]⟩

/-- A collection answering every query with demoQueryRes. -/
def demoCol : Collection := ⟨fun _ _ => demoQueryRes⟩

/-- A store holding exactly the collection research_demo. -/
def demoGetCol : String → Option Collection :=
  fun s => if s = "research_demo" then some demoCol else none

theorem retrieve_scores_sorted_witness :
    (retrieve_context demoGetCol embedQ1 "demo" "what?" none).Perm
      ((queryRows demoCol (embedQ1 "what?")
        (max 1 (effTopK none)).toNat).map mkRow) ∧
    List.Sorted byScoreDesc (retrieve_context demoGetCol embedQ1 "demo" "what?" none) ∧
    ∀ c ∈ retrieve_context demoGetCol embedQ1 "demo" "what?" none,
      ∃ row ∈ queryRows demoCol (embedQ1 "what?") (max 1 (effTopK none)).toNat,
        c = mkRow row ∧ c.score = 1 - row.2.2 :=
  retrieve_scores_sorted demoGetCol embedQ1 "demo" "what?" none demoCol rfl
    (by decide) (by decide)

/-! ## tools/search_web.py -/

/-- A search hit ({title, url, snippet}); by the time hits reach
_dedupe_and_diversify their urls have been normalized by _normalize_url. -/
structure Hit where
  title : String
  url : String
  snippet : String
deriving DecidableEq, Repr

/-- Characters after the first colon (helper for scheme removal). -/
def restAfterColon : List Char → List Char
  | [] => []
  | ':' :: t => t
  | _ :: t => restAfterColon t

/-- urllib.parse.urlparse(u).netloc: strip a valid scheme prefix, then the
netloc is present exactly when the remainder starts with two slashes, running
up to the next slash, question mark or number sign. -/
def netlocChars (l : List Char) : List Char :=
  match (if urlSchemeAux [] l ≠ "" then restAfterColon l else l) with
  | '/' :: '/' :: t =>
    t.takeWhile (fun c => ¬(c = '/' ∨ c = '?' ∨ c = '#'))
  | _ => []

/-- tools/search_web.py _domain: urlparse(u).netloc.lower(), with the
try/except returning "" subsumed by totality. -/
def domainOf (u : String) : String := lowerStr (String.mk (netlocChars u.toList))

/-- tools/search_web.py _dedupe_and_diversify, with the mutable seen-url set
and per-domain counter dict made explicit accumulators. -/
def dedupeDivAux (limit : Nat) : List Hit → List String → (String → Nat) → List Hit
  | [], _, _ => []
  | it :: rest, seenUrls, counts =>
    if pyOr it.url "" = "" ∨ seenUrls.contains (pyOr it.url "") then
      dedupeDivAux limit rest seenUrls counts
    else if domainOf (pyOr it.url "") = "" then
      dedupeDivAux limit rest seenUrls counts
    else if limit ≤ counts (domainOf (pyOr it.url "")) then
      dedupeDivAux limit rest seenUrls counts
    else
      it :: dedupeDivAux limit rest (pyOr it.url "" :: seenUrls)
        (fun d => if d = domainOf (pyOr it.url "") then counts d + 1 else counts d)

/-- tools/search_web.py _dedupe_and_diversify entry point. -/
def dedupe_and_diversify (items : List Hit) (limit : Nat) : List Hit :=
  dedupeDivAux limit items [] (fun _ => 0)

/-- search_web clamps the requested k to max(1, min(k, MAX_SEARCH_RESULTS)). -/
def clampK (k : Int) : Nat := (max 1 (min k MAX_SEARCH_RESULTS)).toNat

/-- The selection stage of tools/search_web.py search_web (the success path
of the SerpAPI loop): hits stands for the results list already built from the
provider's organic results — normalized by _normalize_url and filtered to
non-empty url and title, the network part being external — which is then
deduplicated/diversified with per-domain cap 2 and truncated to the clamped
k. -/
def search_web_select (hits : List Hit) (k : Int) : List Hit :=
  (dedupe_and_diversify hits 2).take (clampK k)

theorem dedupeDivAux_not_seen (limit : Nat) (items : List Hit) :
    ∀ seen counts u, u ∈ (dedupeDivAux limit items seen counts).map Hit.url →
      seen.contains u = false := by
  induction items with
  | nil => intro seen counts u h; cases h
  | cons it rest ih =>
    intro seen counts u h
    unfold dedupeDivAux at h
    rw [pyOr_empty] at h
    by_cases h1 : it.url = "" ∨ seen.contains it.url = true
    · rw [if_pos h1] at h; exact ih seen counts u h
    · rw [if_neg h1] at h
      by_cases h2 : domainOf it.url = ""
      · rw [if_pos h2] at h; exact ih seen counts u h
      · rw [if_neg h2] at h
        by_cases h3 : limit ≤ counts (domainOf it.url)
        · rw [if_pos h3] at h; exact ih seen counts u h
        · rw [if_neg h3] at h
          rw [List.map_cons, List.mem_cons] at h
          cases h with
          | inl h =>
            subst h
            by_cases hc : seen.contains it.url = true
            · exact absurd (Or.inr hc) h1
            · simpa using hc
          | inr h =>
            have h4 := ih _ _ u h
            rw [List.contains_cons] at h4
            exact (Bool.or_eq_false_iff.mp h4).2

theorem dedupeDivAux_nodup (limit : Nat) (items : List Hit) :
    ∀ seen counts,
      ((dedupeDivAux limit items seen counts).map Hit.url).Nodup := by
  induction items with
  | nil => intro seen counts; simp [dedupeDivAux]
  | cons it rest ih =>
    intro seen counts
    unfold dedupeDivAux
    rw [pyOr_empty]
    by_cases h1 : it.url = "" ∨ seen.contains it.url = true
    · rw [if_pos h1]; exact ih seen counts
    · rw [if_neg h1]
      by_cases h2 : domainOf it.url = ""
      · rw [if_pos h2]; exact ih seen counts
      · rw [if_neg h2]
        by_cases h3 : limit ≤ counts (domainOf it.url)
        · rw [if_pos h3]; exact ih seen counts
        · rw [if_neg h3]
          rw [List.map_cons]
          refine List.nodup_cons.mpr ⟨?_, ih _ _⟩
          intro hmem
          have h := dedupeDivAux_not_seen limit rest _ _ it.url hmem
          rw [List.contains_cons] at h
          simp at h

theorem dedupeDivAux_countP (limit : Nat) (items : List Hit) :
    ∀ seen counts d,
      (dedupeDivAux limit items seen counts).countP
        (fun h => domainOf h.url == d) ≤ limit - counts d := by
  induction items with
  | nil => intro seen counts d; simp [dedupeDivAux]
  | cons it rest ih =>
    intro seen counts d
    unfold dedupeDivAux
    rw [pyOr_empty]
    by_cases h1 : it.url = "" ∨ seen.contains it.url = true
    · rw [if_pos h1]; exact ih seen counts d
    · rw [if_neg h1]
      by_cases h2 : domainOf it.url = ""
      · rw [if_pos h2]; exact ih seen counts d
      · rw [if_neg h2]
        by_cases h3 : limit ≤ counts (domainOf it.url)
        · rw [if_pos h3]; exact ih seen counts d
        · rw [if_neg h3]
          rw [List.countP_cons]
          have hih := ih (it.url :: seen)
            (fun x => if x = domainOf it.url then counts x + 1 else counts x) d
          simp only [] at hih
          by_cases hd : d = domainOf it.url
          · subst hd
            rw [if_pos rfl] at hih
            have hone : (if (domainOf it.url == domainOf it.url) = true
                then 1 else 0) = 1 := by simp
            rw [hone]
            omega
          · rw [if_neg hd] at hih
            have hzero : (if (domainOf it.url == d) = true
                then 1 else 0) = 0 := by
              have hf : (domainOf it.url == d) = false := by
                simp only [beq_eq_false_iff_ne, ne_eq]
                exact fun hx => hd hx.symm
              simp [hf]
            rw [hzero]
            simpa using hih

/-- A single search hit for the C7 counterexample. -/
def soloHit : Hit := ⟨"T", "https://one.example/a", "s"⟩

theorem search_limit_counterexample :
    search_web_select [soloHit] 0 = [soloHit] ∧
    ¬(((search_web_select [soloHit] 0).length : Int) ≤ 0) := by
  constructor
  · rfl
  · decide

/-- C7 (amended): the selected result of search_web has pairwise-distinct
(already normalized) urls, contains at most 2 entries of any single domain,
and its length is at most max(1, min(limit, MAX_SEARCH_RESULTS)); in
particular it is at most the requested limit whenever that limit is at least
one.  The amendment over the original claim: the requested limit is clamped
from below to 1 first, so a requested limit smaller than 1 can still yield
one result. -/
theorem search_select_bounds (hits : List Hit) (k : Int) :
    ((search_web_select hits k).map Hit.url).Nodup ∧
    (∀ d, (search_web_select hits k).countP
      (fun h => domainOf h.url == d) ≤ 2) ∧
    (search_web_select hits k).length ≤ clampK k ∧
    (1 ≤ k → ((search_web_select hits k).length : Int) ≤ k) := by
  have hsub : List.Sublist (search_web_select hits k)
      (dedupe_and_diversify hits 2) := List.take_sublist _ _
  refine ⟨?_, ?_, ?_, ?_⟩
  · exact List.Nodup.sublist (hsub.map Hit.url)
      (dedupeDivAux_nodup 2 hits [] (fun _ => 0))
  · intro d
    calc (search_web_select hits k).countP (fun h => domainOf h.url == d)
        ≤ (dedupe_and_diversify hits 2).countP (fun h => domainOf h.url == d) :=
          hsub.countP_le _
      _ ≤ 2 - 0 := dedupeDivAux_countP 2 hits [] (fun _ => 0) d
      _ = 2 := rfl
  · exact List.length_take_le _ _
  · intro hk
    have h1 : (search_web_select hits k).length ≤ clampK k :=
      List.length_take_le _ _
    have h2 : (clampK k : Int) ≤ k := by
      unfold clampK
      rw [Int.toNat_of_nonneg (by omega)]
      unfold MAX_SEARCH_RESULTS
      omega
    calc ((search_web_select hits k).length : Int)
        ≤ (clampK k : Int) := by exact_mod_cast h1
      _ ≤ k := h2

/-- Ten hits of which six share the domain big.example. -/
def hits10 : List Hit :=
  [⟨"t1", "https://big.example/1", "s"⟩,
   ⟨"t2", "https://big.example/2", "s"⟩,
   ⟨"t3", "https://big.example/3", "s"⟩,
   ⟨"t4", "https://big.example/4", "s"⟩,
   ⟨"t5", "https://big.example/5", "s"⟩,
   ⟨"t6", "https://big.example/6", "s"⟩,
   ⟨"t7", "https://alpha.example/1", "s"⟩,
   ⟨"t8", "https://beta.example/1", "s"⟩,
   ⟨"t9", "https://gamma.example/1", "s"⟩,
   ⟨"t10", "https://delta.example/1", "s"⟩]

theorem search_select_bounds_witness :
    ((search_web_select hits10 8).map Hit.url).Nodup ∧
    (∀ d, (search_web_select hits10 8).countP
      (fun h => domainOf h.url == d) ≤ 2) ∧
    ((search_web_select hits10 8).length : Int) ≤ 8 :=
  ⟨(search_select_bounds hits10 8).1,
   (search_select_bounds hits10 8).2.1,
   (search_select_bounds hits10 8).2.2.2 (by decide)⟩

/-! ## tools/embed_chunks.py -/

/-- An embedding record ({chunk_id, embedding}). -/
structure EmbRecord where
  chunk_id : String
  embedding : List ℚ
deriving DecidableEq, Repr

/-- The (chunk_id, stripped text) pairs of embed_chunks, with empty-text
entries filtered out. -/
def itemsOf (chunks : List Chunk) : List (String × String) :=
  (chunks.map fun c => (c.chunk_id, pyStrip (pyOr c.text ""))).filter
    fun p => p.2 ≠ ""

/-- Fueled version of _batched (fuel bounds the number of loop steps; the
list length is enough fuel for any positive step). -/
def batchedF (n : Nat) : Nat → Nat → List (String × String) →
    List (Nat × List (String × String))
  | 0, _, _ => []
  | _ + 1, _, [] => []
  | fuel + 1, i, a :: l =>
    (i, (a :: l).take n) :: batchedF n fuel (i + n) ((a :: l).drop n)

/-- tools/embed_chunks.py _batched: yields (start index, slice) in steps of n.
A step of zero makes Python's range raise ValueError; that case is modelled as
no batches and excluded by the positivity hypothesis of every theorem. -/
def batched (n : Nat) (l : List (String × String)) :
    List (Nat × List (String × String)) :=
  if n = 0 then [] else batchedF n l.length 0 l

/-- One batch of the embedding loop: emb is the provider call wrapped in its
retry loop — some vecs when resp.data arrived (possibly after retries), none
when the batch permanently failed (retries exhausted or APIError) and its
records are dropped. -/
def embWork (emb : Nat → List String → Option (List (List ℚ)))
    (b : Nat × List (String × String)) : List EmbRecord :=
  match emb b.1 (b.2.map Prod.snd) with
  | some vecs => ((b.2.map Prod.fst).zip vecs).map fun p => ⟨p.1, p.2⟩
  | none => []

/-- All records accumulated by the batch loop (outputs before the final
sort). -/
def successRecords (emb : Nat → List String → Option (List (List ℚ)))
    (batch_size : Nat) (chunks : List Chunk) : List EmbRecord :=
  ((batched batch_size (itemsOf chunks)).map (embWork emb)).flatten

/-- order_map.get(chunk_id, 1_000_000): the dict comprehension keeps the last
index of a repeated id. -/
def orderMapGet (chunks : List Chunk) (cid : String) : Nat :=
  match ((List.enum chunks).filter fun p => p.2.chunk_id == cid).getLast? with
  | some p => p.1
  | none => 1000000

/-- The ascending key order of outputs.sort(key=order_map.get). -/
def byInputOrder (chunks : List Chunk) (a b : EmbRecord) : Prop :=
  orderMapGet chunks a.chunk_id ≤ orderMapGet chunks b.chunk_id

instance (chunks : List Chunk) : DecidableRel (byInputOrder chunks) :=
  fun a b => inferInstanceAs (Decidable (_ ≤ _))

instance (chunks : List Chunk) : IsTotal EmbRecord (byInputOrder chunks) :=
  ⟨fun a b => Nat.le_total _ _⟩

instance (chunks : List Chunk) : IsTrans EmbRecord (byInputOrder chunks) :=
  ⟨fun _ _ _ h1 h2 => le_trans h1 h2⟩

/-- tools/embed_chunks.py embed_chunks (the batch path; the two provider
branches differ only in which external embedding call emb stands for).
Retries and backoff sleeps live inside emb; a permanently failed batch
contributes nothing.  The final stable ascending sort by original chunk index
models outputs.sort(key=order_map.get). -/
def embed_chunks (emb : Nat → List String → Option (List (List ℚ)))
    (chunks : List Chunk) (batch_size : Nat) : List EmbRecord :=
  if chunks = [] then []
  else if itemsOf chunks = [] then []
  else List.insertionSort (byInputOrder chunks)
    (successRecords emb batch_size chunks)

theorem batchedF_join (n : Nat) (hn : 0 < n) :
    ∀ fuel l i, l.length ≤ fuel →
      ((batchedF n fuel i l).map Prod.snd).flatten = l := by
  intro fuel
  induction fuel with
  | zero =>
    intro l i hl
    rw [List.length_eq_zero.mp (Nat.le_zero.mp hl)]
    rfl
  | succ m ih =>
    intro l i hl
    match l with
    | [] => rfl
    | a :: t =>
      simp only [batchedF, List.map_cons, List.flatten_cons]
      have hlen : ((a :: t).drop n).length ≤ m := by
        rw [List.length_drop]
        simp only [List.length_cons] at hl ⊢
        omega
      rw [ih ((a :: t).drop n) (i + n) hlen]
      exact List.take_append_drop n (a :: t)

theorem batched_join (n : Nat) (hn : 0 < n) (l : List (String × String)) :
    ((batched n l).map Prod.snd).flatten = l := by
  unfold batched
  rw [if_neg (Nat.pos_iff_ne_zero.mp hn)]
  exact batchedF_join n hn l.length l 0 le_rfl

theorem zip_fst_sublist {β : Type} (l1 : List String) (l2 : List β) :
    List.Sublist ((l1.zip l2).map Prod.fst) l1 := by
  induction l1 generalizing l2 with
  | nil => simp
  | cons a t ih =>
    match l2 with
    | [] => simp
    | b :: s =>
      simp only [List.zip_cons_cons, List.map_cons]
      exact List.Sublist.cons₂ a (ih s)

theorem embWork_cids_sublist (emb : Nat → List String → Option (List (List ℚ)))
    (b : Nat × List (String × String)) :
    List.Sublist ((embWork emb b).map EmbRecord.chunk_id)
      (b.2.map Prod.fst) := by
  unfold embWork
  match emb b.1 (b.2.map Prod.snd) with
  | none => simp
  | some vecs =>
    simp only [List.map_map]
    exact zip_fst_sublist (b.2.map Prod.fst) vecs

theorem successRecords_cids_sublist
    (emb : Nat → List String → Option (List (List ℚ)))
    (bs : List (Nat × List (String × String))) :
    List.Sublist (((bs.map (embWork emb)).flatten).map EmbRecord.chunk_id)
      ((bs.map Prod.snd).flatten.map Prod.fst) := by
  induction bs with
  | nil => simp
  | cons b t ih =>
    simp only [List.map_cons, List.flatten_cons, List.map_append]
    exact List.Sublist.append (embWork_cids_sublist emb b) ih

theorem itemsOf_fst_sublist (chunks : List Chunk) :
    List.Sublist ((itemsOf chunks).map Prod.fst)
      (chunks.map Chunk.chunk_id) := by
  unfold itemsOf
  have h1 : List.Sublist (itemsOf chunks)
      (chunks.map fun c => (c.chunk_id, pyStrip (pyOr c.text ""))) :=
    List.filter_sublist _
  have h2 := h1.map Prod.fst
  unfold itemsOf at h2
  simpa [List.map_map, Function.comp] using h2

theorem successRecords_cids_sublist_chunks
    (emb : Nat → List String → Option (List (List ℚ)))
    (batch_size : Nat) (hb : 0 < batch_size) (chunks : List Chunk) :
    List.Sublist ((successRecords emb batch_size chunks).map EmbRecord.chunk_id)
      (chunks.map Chunk.chunk_id) := by
  have h1 := successRecords_cids_sublist emb (batched batch_size (itemsOf chunks))
  rw [batched_join batch_size hb (itemsOf chunks)] at h1
  exact h1.trans (itemsOf_fst_sublist chunks)

theorem getLast?_mem_list {α : Type} (l : List α) (x : α)
    (h : l.getLast? = some x) : x ∈ l := by
  induction l with
  | nil => cases h
  | cons a t ih =>
    match t with
    | [] =>
      obtain rfl := (Option.some.injEq _ _).mp h
      exact List.mem_singleton_self _
    | b :: s =>
      rw [List.getLast?_cons_cons] at h
      exact List.mem_cons_of_mem a (ih h)

theorem batched_nil (n : Nat) : batched n [] = [] := by
  unfold batched
  split
  · rfl
  · rfl

theorem successRecords_nil_items
    (emb : Nat → List String → Option (List (List ℚ)))
    (batch_size : Nat) (chunks : List Chunk) (h : itemsOf chunks = []) :
    successRecords emb batch_size chunks = [] := by
  unfold successRecords
  rw [h, batched_nil]
  rfl

theorem orderMapGet_spec (chunks : List Chunk) (cid : String)
    (h : cid ∈ chunks.map Chunk.chunk_id) :
    ∃ c, chunks.get? (orderMapGet chunks cid) = some c ∧
      c.chunk_id = cid := by
  obtain ⟨c, hc, rfl⟩ := List.mem_map.mp h
  obtain ⟨p, hp⟩ := List.get?_of_mem hc
  have hpen : ((p, c) : Nat × Chunk) ∈ List.enum chunks :=
    List.mem_enum_iff_get?.mpr hp
  have hfil : ((p, c) : Nat × Chunk) ∈
      (List.enum chunks).filter fun q => q.2.chunk_id == c.chunk_id :=
    List.mem_filter.mpr ⟨hpen, beq_self_eq_true _⟩
  have hne : ((List.enum chunks).filter
      fun q => q.2.chunk_id == c.chunk_id) ≠ [] :=
    List.ne_nil_of_mem hfil
  obtain ⟨x, hx⟩ := Option.isSome_iff_exists.mp
    (List.getLast?_isSome.mpr hne)
  have hxmem := getLast?_mem_list _ x hx
  obtain ⟨hxen, hxid⟩ := List.mem_filter.mp hxmem
  refine ⟨x.2, ?_, beq_iff_eq.mp hxid⟩
  have hglast : orderMapGet chunks c.chunk_id = x.1 := by
    unfold orderMapGet
    rw [hx]
  rw [hglast]
  exact List.mem_enum_iff_get?.mp hxen

theorem orderMapGet_inj (chunks : List Chunk) (c1 c2 : String)
    (h1 : c1 ∈ chunks.map Chunk.chunk_id)
    (h2 : c2 ∈ chunks.map Chunk.chunk_id)
    (he : orderMapGet chunks c1 = orderMapGet chunks c2) : c1 = c2 := by
  obtain ⟨a, ha, haid⟩ := orderMapGet_spec chunks c1 h1
  obtain ⟨b, hb, hbid⟩ := orderMapGet_spec chunks c2 h2
  rw [he, hb] at ha
  obtain rfl := (Option.some.injEq _ _).mp ha
  rw [← haid, ← hbid]

/-- C8 (amended): for every chunk list with pairwise-distinct chunk_ids (as
the chunker produces) and positive batch size, embed_chunks — a total
function, so it never raises — returns exactly the accumulated records of the
batches whose embedding call succeeded (a permanently failed batch loses only
its own records), and the returned records are in strictly increasing order
of their chunk's position in the input list.  The amendment over the original
claim: the chunk_ids must be pairwise distinct — with a repeated id the final
sort keys every copy by the last occurrence and can break relative order. -/
theorem embed_chunks_partial_failure
    (emb : Nat → List String → Option (List (List ℚ)))
    (chunks : List Chunk) (batch_size : Nat) (hb : 0 < batch_size)
    (hnd : (chunks.map Chunk.chunk_id).Nodup) :
    (embed_chunks emb chunks batch_size).Perm
      (successRecords emb batch_size chunks) ∧
    List.Pairwise (fun a b : EmbRecord =>
      orderMapGet chunks a.chunk_id < orderMapGet chunks b.chunk_id)
      (embed_chunks emb chunks batch_size) := by
  constructor
  · unfold embed_chunks
    by_cases h1 : chunks = []
    · rw [if_pos h1]
      rw [successRecords_nil_items emb batch_size chunks (by rw [h1]; rfl)]
    · rw [if_neg h1]
      by_cases h2 : itemsOf chunks = []
      · rw [if_pos h2, successRecords_nil_items emb batch_size chunks h2]
      · rw [if_neg h2]
        exact List.perm_insertionSort _ _
  · unfold embed_chunks
    by_cases h1 : chunks = []
    · rw [if_pos h1]; exact List.Pairwise.nil
    · rw [if_neg h1]
      by_cases h2 : itemsOf chunks = []
      · rw [if_pos h2]; exact List.Pairwise.nil
      · rw [if_neg h2]
        have hperm := List.perm_insertionSort (byInputOrder chunks)
          (successRecords emb batch_size chunks)
        have hsorted : List.Pairwise (byInputOrder chunks)
            (List.insertionSort (byInputOrder chunks)
              (successRecords emb batch_size chunks)) :=
          List.sorted_insertionSort (byInputOrder chunks) _
        have hsub := successRecords_cids_sublist_chunks emb batch_size hb chunks
        have hnd2 : ((successRecords emb batch_size chunks).map
            EmbRecord.chunk_id).Nodup := List.Nodup.sublist hsub hnd
        have hndL : ((List.insertionSort (byInputOrder chunks)
            (successRecords emb batch_size chunks)).map
              EmbRecord.chunk_id).Nodup :=
          ((hperm.map EmbRecord.chunk_id).nodup_iff).mpr hnd2
        have hmemL : ∀ r ∈ List.insertionSort (byInputOrder chunks)
            (successRecords emb batch_size chunks),
            r.chunk_id ∈ chunks.map Chunk.chunk_id := by
          intro r hr
          have him : r.chunk_id ∈ (successRecords emb batch_size chunks).map
              EmbRecord.chunk_id :=
            List.mem_map_of_mem _ (hperm.mem_iff.mp hr)
          exact hsub.subset him
        have hpne : List.Pairwise (fun a b : EmbRecord =>
            a.chunk_id ≠ b.chunk_id) (List.insertionSort (byInputOrder chunks)
              (successRecords emb batch_size chunks)) :=
          List.pairwise_map.mp hndL
        refine List.Pairwise.imp_of_mem ?_ (hsorted.and hpne)
        intro a b ha hbm hr
        obtain ⟨hle, hne⟩ := hr
        refine lt_of_le_of_ne hle ?_
        intro heq
        exact hne (orderMapGet_inj chunks _ _ (hmemL a ha) (hmemL b hbm) heq)

/-- Three chunks in which the first and last share a chunk_id. -/
def dupChunks : List Chunk :=
  [⟨"x", "a", "u", "t", 0⟩, ⟨"y", "bb", "u", "t", 1⟩,
   ⟨"x", "ccc", "u", "t", 2⟩]

/-- An embedding backend mapping each text to its length. -/
def embLen : Nat → List String → Option (List (List ℚ)) :=
  fun _ texts => some (texts.map fun t => [(pyLen t : ℚ)])

theorem embed_order_counterexample :
    embed_chunks embLen dupChunks 64 =
      [⟨"y", [2]⟩, ⟨"x", [1]⟩, ⟨"x", [3]⟩] ∧
    dupChunks.map (fun c => (c.chunk_id, c.text)) =
      [("x", "a"), ("y", "bb"), ("x", "ccc")] ∧
    embLen 0 ["a", "bb", "ccc"] = some [[1], [2], [3]] := by
  refine ⟨by decide, rfl, by decide⟩

/-- Four chunks with distinct ids. -/
def chunks4 : List Chunk :=
  [⟨"c1", "t1", "u", "T", 0⟩, ⟨"c2", "t2", "u", "T", 1⟩,
   ⟨"c3", "t3", "u", "T", 2⟩, ⟨"c4", "t4", "u", "T", 3⟩]

/-- A backend whose second batch (start index 2) permanently fails. -/
def embFail2 : Nat → List String → Option (List (List ℚ)) :=
  fun start texts =>
    if start = 2 then none else some (texts.map fun t => [(pyLen t : ℚ)])

theorem embed_chunks_partial_failure_witness :
    (embed_chunks embFail2 chunks4 2).Perm
      (successRecords embFail2 2 chunks4) ∧
    List.Pairwise (fun a b : EmbRecord =>
      orderMapGet chunks4 a.chunk_id < orderMapGet chunks4 b.chunk_id)
      (embed_chunks embFail2 chunks4 2) :=
  embed_chunks_partial_failure embFail2 chunks4 2 (by decide) (by decide)

/-! ## tools/upsert_vectors.py -/

/-- A record handed to upsert_vectors: embedding is none when the value is
missing or not a list (the isinstance check), metadata is the dict (or \x7b\x7d
when falsy, which for an association list is the same value). -/
structure URecord where
  id : String
  embedding : Option (List ℚ)
  document : String
  metadata : List (String × String)
deriving DecidableEq, Repr

/-- An item as persisted in a collection. -/
structure StoredItem where
  id : String
  embedding : List ℚ
  document : String
  metadata : List (String × String)
deriving DecidableEq, Repr

/-- A Chroma collection: its creation metadata and its items. -/
structure VCollection where
  meta : List (String × String)
  items : List StoredItem
deriving DecidableEq, Repr

/-- The persistent Chroma store: named collections in creation order. -/
abbrev VStore := List (String × VCollection)

/-- Look a collection up by name (client.get_collection). -/
def storeFind : VStore → String → Option VCollection
  | [], _ => none
  | p :: t, name => if p.1 == name then some p.2 else storeFind t name

/-- client.get_or_create_collection: reuse the collection when present,
otherwise create it with the given metadata. -/
def getOrCreate (store : VStore) (name : String)
    (meta : List (String × String)) : VStore :=
  match storeFind store name with
  | some _ => store
  | none => store ++ [(name, ⟨meta, []⟩)]

/-- The cosine-space metadata upsert_vectors creates collections with. -/
def cosineMeta : List (String × String) := [("hnsw:space", "cosine")]

/-- The per-record validation loop of upsert_vectors: skip records with an
empty stripped id, a missing/non-list embedding, or empty stripped document
text. -/
def validRow (r : URecord) : Option StoredItem :=
  match r.embedding with
  | none => none
  | some vec =>
    if pyStrip r.id = "" ∨ pyStrip (pyOr r.document "") = "" then none
    else some ⟨pyStrip r.id, vec, pyStrip (pyOr r.document ""), r.metadata⟩

/-- Upsert one item into a collection's items: overwrite the item with the
same id when present, else append. -/
def upsertItem (items : List StoredItem) (it : StoredItem) : List StoredItem :=
  if items.any (fun x => x.id == it.id) then
    items.map (fun x => if x.id == it.id then it else x)
  else items ++ [it]

/-- collection.upsert over a batch of items (insert-or-overwrite by id). -/
def upsertItems (items : List StoredItem) (vs : List StoredItem) :
    List StoredItem :=
  vs.foldl upsertItem items

/-- Apply a batch upsert to the named collection of the store. -/
def applyUpsert (store : VStore) (name : String) (vs : List StoredItem) :
    VStore :=
  store.map fun p =>
    if p.1 == name then (p.1, ⟨p.2.meta, upsertItems p.2.items vs⟩) else p

/-- tools/upsert_vectors.py upsert_vectors over the VStore model: empty
namespace raises ValueError (the error case); an empty records list returns
count 0 before any client call; otherwise the collection is get-or-created,
records are validated, and the valid ones are upserted in one call. -/
def upsert_vectors (ns : String) (records : List URecord) (store : VStore) :
    Except String (VStore × Nat) :=
  if ns = "" then Except.error "namespace is required"
  else if records = [] then Except.ok (store, 0)
  else
    if records.filterMap validRow = [] then
      Except.ok (getOrCreate store (collectionName ns) cosineMeta, 0)
    else
      Except.ok
        (applyUpsert (getOrCreate store (collectionName ns) cosineMeta)
          (collectionName ns) (records.filterMap validRow),
         (records.filterMap validRow).length)

theorem storeFind_append_new (store : VStore) (name : String)
    (col : VCollection) (h : storeFind store name = none) :
    storeFind (store ++ [(name, col)]) name = some col := by
  induction store with
  | nil => simp [storeFind]
  | cons a t ih =>
    rw [List.cons_append]
    unfold storeFind at h ⊢
    by_cases ha : (a.1 == name) = true
    · rw [if_pos ha] at h; cases h
    · rw [if_neg ha] at h ⊢
      exact ih h

theorem storeFind_append_pres (store : VStore) (name : String) (c : VCollection)
    (l : VStore) (h : storeFind store name = some c) :
    storeFind (store ++ l) name = some c := by
  induction store with
  | nil => cases h
  | cons a t ih =>
    rw [List.cons_append]
    unfold storeFind at h ⊢
    by_cases ha : (a.1 == name) = true
    · rw [if_pos ha] at h ⊢; exact h
    · rw [if_neg ha] at h ⊢
      exact ih h

theorem storeFind_getOrCreate (store : VStore) (name : String)
    (m : List (String × String)) :
    storeFind (getOrCreate store name m) name ≠ none := by
  unfold getOrCreate
  match hf : storeFind store name with
  | some c => rw [hf]; simp
  | none =>
    rw [storeFind_append_new store name ⟨m, []⟩ hf]
    simp

theorem storeFind_getOrCreate_pres (store : VStore) (name name2 : String)
    (m : List (String × String)) (h : storeFind store name2 ≠ none) :
    storeFind (getOrCreate store name m) name2 ≠ none := by
  unfold getOrCreate
  match hf : storeFind store name with
  | some c => exact h
  | none =>
    match hf2 : storeFind store name2 with
    | some c2 => rw [storeFind_append_pres store name2 c2 _ hf2]; simp
    | none => exact absurd hf2 h

theorem storeFind_applyUpsert_pres (name name2 : String)
    (vs : List StoredItem) :
    ∀ store : VStore, storeFind store name2 ≠ none →
      storeFind (applyUpsert store name vs) name2 ≠ none := by
  intro store
  induction store with
  | nil => intro h; exact absurd rfl h
  | cons p t ih =>
    intro h
    unfold applyUpsert at *
    rw [List.map_cons]
    unfold storeFind at h ⊢
    by_cases hpn : (p.1 == name) = true
    · rw [if_pos hpn]
      by_cases hp2 : (p.1 == name2) = true
      · rw [if_pos hp2]; simp
      · rw [if_neg hp2] at h
        rw [if_neg hp2]
        exact ih h
    · rw [if_neg hpn]
      by_cases hp2 : (p.1 == name2) = true
      · rw [if_pos hp2]; simp
      · rw [if_neg hp2] at h
        rw [if_neg hp2]
        exact ih h

/-- A malformed record: its id strips to empty, so it is skipped. -/
def malRec : URecord := ⟨"", some [1], "doc", []⟩

theorem upsert_creates_on_malformed_counterexample :
    upsert_vectors "demo" [malRec] [] =
      Except.ok ([("research_demo", ⟨cosineMeta, []⟩)], 0) ∧
    ([("research_demo", (⟨cosineMeta, []⟩ : VCollection))] : VStore) ≠ [] :=
  ⟨rfl, by decide⟩

/-- C9 (amended): a call of upsert_vectors with an empty records list leaves
the vector store unchanged, and the pipeline never implicitly deletes a
collection — every collection present before any call is present after it;
but the namespace's backing collection is get-or-created on the first call
whose records list is non-empty, even when every record is malformed and zero
records are upserted.  The amendment over the original claim: creation is
triggered by any non-empty records list, not only by the first successful
upsert of a valid record. -/
theorem upsert_vectors_amended (ns : String) (records : List URecord)
    (store store2 : VStore) (n : Nat)
    (hok : upsert_vectors ns records store = Except.ok (store2, n)) :
    (records = [] → store2 = store) ∧
    (records ≠ [] → storeFind store2 (collectionName ns) ≠ none) ∧
    (∀ name, storeFind store name ≠ none →
      storeFind store2 name ≠ none) := by
  unfold upsert_vectors at hok
  by_cases hns : ns = ""
  · rw [if_pos hns] at hok; cases hok
  · rw [if_neg hns] at hok
    by_cases hrec : records = []
    · rw [if_pos hrec] at hok
      have hp := (Except.ok.injEq _ _).mp hok
      injection hp with h1 h2
      subst h1
      exact ⟨fun _ => rfl, fun h => absurd hrec h, fun name h => h⟩
    · rw [if_neg hrec] at hok
      by_cases hval : records.filterMap validRow = []
      · rw [if_pos hval] at hok
        have hp := (Except.ok.injEq _ _).mp hok
        injection hp with h1 h2
        subst h1
        refine ⟨fun h => absurd h hrec, fun _ => ?_, fun name h => ?_⟩
        · exact storeFind_getOrCreate store (collectionName ns) cosineMeta
        · exact storeFind_getOrCreate_pres store (collectionName ns) name
            cosineMeta h
      · rw [if_neg hval] at hok
        have hp := (Except.ok.injEq _ _).mp hok
        injection hp with h1 h2
        subst h1
        refine ⟨fun h => absurd h hrec, fun _ => ?_, fun name h => ?_⟩
        · exact storeFind_applyUpsert_pres (collectionName ns)
            (collectionName ns) _ _
            (storeFind_getOrCreate store (collectionName ns) cosineMeta)
        · exact storeFind_applyUpsert_pres (collectionName ns) name _ _
            (storeFind_getOrCreate_pres store (collectionName ns) name
              cosineMeta h)

/-- A well-formed record for the C9 witness. -/
def goodRec : URecord :=
  ⟨"id1", some [1, 2], "hello world", [("url", "https://e.example")]⟩

theorem upsert_vectors_amended_witness :
    ((([] : List URecord) = [] →
      ([("research_old", (⟨cosineMeta, []⟩ : VCollection))] : VStore) =
        [("research_old", ⟨cosineMeta, []⟩)]) ∧
     (([] : List URecord) ≠ [] →
      storeFind [("research_old", ⟨cosineMeta, []⟩)]
        (collectionName "demo") ≠ none) ∧
     (∀ name,
      storeFind [("research_old", (⟨cosineMeta, []⟩ : VCollection))] name ≠ none →
      storeFind [("research_old", ⟨cosineMeta, []⟩)] name ≠ none)) ∧
    ((([goodRec] : List URecord) = [] →
      ([("research_old", ⟨cosineMeta, []⟩),
        ("research_demo", ⟨cosineMeta,
          [⟨"id1", [1, 2], "hello world", [("url", "https://e.example")]⟩]⟩)] :
        VStore) = [("research_old", ⟨cosineMeta, []⟩)]) ∧
     (([goodRec] : List URecord) ≠ [] →
      storeFind [("research_old", ⟨cosineMeta, []⟩),
        ("research_demo", ⟨cosineMeta,
          [⟨"id1", [1, 2], "hello world", [("url", "https://e.example")]⟩]⟩)]
        (collectionName "demo") ≠ none) ∧
     (∀ name,
      storeFind [("research_old", (⟨cosineMeta, []⟩ : VCollection))] name ≠ none →
      storeFind [("research_old", ⟨cosineMeta, []⟩),
        ("research_demo", ⟨cosineMeta,
          [⟨"id1", [1, 2], "hello world", [("url", "https://e.example")]⟩]⟩)]
        name ≠ none)) :=
  ⟨upsert_vectors_amended "demo" [] [("research_old", ⟨cosineMeta, []⟩)]
      [("research_old", ⟨cosineMeta, []⟩)] 0 rfl,
   upsert_vectors_amended "demo" [goodRec]
      [("research_old", ⟨cosineMeta, []⟩)]
      [("research_old", ⟨cosineMeta, []⟩),
       ("research_demo", ⟨cosineMeta,
         [⟨"id1", [1, 2], "hello world", [("url", "https://e.example")]⟩]⟩)] 1
      rfl⟩

/-- C10: upsert_vectors called with an empty namespace string raises
ValueError("namespace is required") for every records list — even the empty
one — and every store; by contrast the retrieval component degrades to an
empty result on an empty namespace instead of raising. -/
theorem upsert_empty_namespace (records : List URecord) (store : VStore)
    (getCol : String → Option Collection) (embedQ : String → List ℚ)
    (question : String) (top_k : Option Int) :
    upsert_vectors "" records store = Except.error "namespace is required" ∧
    retrieve_context getCol embedQ "" question top_k = [] := by
  constructor
  · rfl
  · unfold retrieve_context
    simp

end RA
